import Mathlib

/-!
Verification of the annotation-driven clipping pipeline of `src/main.py`
(NBCG, "Multi-Format File Converter & Video Annotator").

The development shallowly embeds the algorithmic core of the program:

* the frame/millisecond conversions used by `VideoAnnotationDialog`
  (`position_changed`, line 337: `frame = int(position / 1000.0 * self.fps)`,
  clamped to a minimum of 1);
* the annotation store mutated by `VideoAnnotationDialog.mark_enter` and
  `mark_exit` (a label-keyed, insertion-ordered mapping to optional
  `enter` / `exit` frames);
* the validator and extractor `MainWindow.clip_by_annotations`
  (lines 735-782): per-label completeness and inversion checks, a stable
  sort by `enter_frame`, the adjacent-pair overlap scan, and the per-interval
  seek/read/write loop over an OpenCV capture;
* the normalizer `video_to_avi` (lines 25-47): ffmpeg invocation followed
  by an existence / minimum-size check on the produced file.

Python floats are embedded as rationals, machine integers as `Nat`/`Int`,
the video source as a list of frames, and the OpenCV capture as an explicit
zero-based read position.  A `cv2.VideoWriter` that fails to open is modelled
by a boolean per interval: in that case every `write` is a silent no-op
(exactly OpenCV's behaviour), so such an interval contributes no frames.
-/

namespace NBCG

/-! ## Frame/time conversion (`VideoAnnotationDialog`) -/

/-- `main.py` line 337 ff.: `frame = int(position / 1000.0 * self.fps)`,
displayed as `frame if frame > 0 else 1`.  `int` truncates, which on the
nonnegative values produced here is `Int.floor`; the clamp to a minimum
of 1 is the `else 1` branch. -/
def ms_to_frame (ms : ℤ) (fps : ℚ) : ℤ :=
  max 1 (Int.floor ((ms : ℚ) * fps / 1000))

/-- The forward conversion of spec section 4.1: a frame `f ≥ 1` sits at
wall-clock position `round ((f - 1) * 1000 / fps)` milliseconds (frame 1 at
0 ms).  The GUI realises it implicitly through the slider geometry
(`initial_position = int(1000 / self.fps)` and frame-sized slider steps). -/
def frame_to_ms (frame : ℤ) (fps : ℚ) : ℤ :=
  round (((frame : ℚ) - 1) * 1000 / fps)

/-! ## Annotation store (`VideoAnnotationDialog.annotations`) -/

/-- One entry of `self.annotations`: a label (intruder name) mapped to the
optional marked enter and exit frames.  The Python dict is insertion
ordered, so the store is a list of entries with distinct labels. -/
structure Entry where
  label : String
  enter : Option ℕ
  exit  : Option ℕ
deriving DecidableEq

/-- `intruder_name in self.annotations` plus the subsequent field access:
find the entry for a label, if any. -/
def lookupLabel (store : List Entry) (l : String) : Option Entry :=
  store.find? (fun e => e.label = l)

/-- `self.annotations[intruder_name]["enter"] = frame` on an existing key:
update the entry in place (the dict keeps its position). -/
def setEnter (store : List Entry) (l : String) (f : ℕ) : List Entry :=
  store.map (fun e => if e.label = l then { e with enter := some f } else e)

/-- Symmetric update of the `exit` field. -/
def setExit (store : List Entry) (l : String) (f : ℕ) : List Entry :=
  store.map (fun e => if e.label = l then { e with exit := some f } else e)

/-- `VideoAnnotationDialog.mark_enter` (lines 398-411).  If the label
already has an `enter` value the attempt is rejected (a warning dialog;
here the `false` flag) and the store is left untouched; otherwise the entry
is created or updated.  Returns `(accepted, new store)`. -/
def mark_enter (store : List Entry) (l : String) (f : ℕ) : Bool × List Entry :=
  match lookupLabel store l with
  | some e => if e.enter.isSome then (false, store) else (true, setEnter store l f)
  | none   => (true, store ++ [{ label := l, enter := some f, exit := none }])

/-- `VideoAnnotationDialog.mark_exit` (lines 413-433), identical shape for
the `exit` field. -/
def mark_exit (store : List Entry) (l : String) (f : ℕ) : Bool × List Entry :=
  match lookupLabel store l with
  | some e => if e.exit.isSome then (false, store) else (true, setExit store l f)
  | none   => (true, store ++ [{ label := l, enter := none, exit := some f }])

/-! ## Interval validation (`MainWindow.clip_by_annotations`, lines 735-753) -/

/-- A collected interval: the tuple `(enter_frame, exit_frame, intruder)`. -/
structure Interval where
  enter : ℕ
  exit  : ℕ
  label : String
deriving DecidableEq

/-- The distinct failure messages `clip_by_annotations` can return with
`False`, plus the source-open failure. -/
inductive ClipError where
  | incomplete (label : String)
  | inverted (label : String)
  | overlap (labelA labelB : String)
  | sourceUnopenable
deriving DecidableEq

/-- Lines 736-744: iterate over the store in insertion order; fail on the
first entry missing a field ("Incomplete annotation for intruder ...") or
with `exit < enter` ("Exit frame occurs before enter frame ..."), otherwise
collect the `(enter, exit, label)` tuple. -/
def collectIntervals : List Entry → Except ClipError (List Interval)
  | [] => .ok []
  | e :: es =>
    match e.enter, e.exit with
    | some en, some ex =>
      if ex < en then .error (.inverted e.label)
      else
        match collectIntervals es with
        | .error err => .error err
        | .ok rest => .ok ({ enter := en, exit := ex, label := e.label } :: rest)
    | _, _ => .error (.incomplete e.label)

/-- Line 746: `intervals.sort(key=lambda x: x[0])`.  Python's sort is
stable and ascending on the key, which insertion sort with the non-strict
key comparison realises exactly. -/
def sortByEnter (l : List Interval) : List Interval :=
  List.insertionSort (fun a b => a.enter ≤ b.enter) l

instance : IsTotal Interval (fun a b => a.enter ≤ b.enter) :=
  ⟨fun a b => Nat.le_total a.enter b.enter⟩

instance : IsTrans Interval (fun a b => a.enter ≤ b.enter) :=
  ⟨fun _ _ _ hab hbc => Nat.le_trans hab hbc⟩

/-- Lines 748-753: scan adjacent pairs of the sorted list, failing with the
two offending labels on the first pair with `next.enter <= current.exit`. -/
def checkOverlap : List Interval → Except ClipError Unit
  | a :: b :: rest =>
    if b.enter ≤ a.exit then .error (.overlap a.label b.label)
    else checkOverlap (b :: rest)
  | _ => .ok ()

/-- The validation phase of `clip_by_annotations`: collect, sort, scan. -/
def validateAnnotations (store : List Entry) : Except ClipError (List Interval) :=
  match collectIntervals store with
  | .error e => .error e
  | .ok ivs =>
    match checkOverlap (sortByEnter ivs) with
    | .error e => .error e
    | .ok () => .ok (sortByEnter ivs)

/-! ## Clip extraction (`MainWindow.clip_by_annotations`, lines 755-782) -/

/-- The read/write loop body, fuelled by the number of remaining iterations
(`current_frame` runs from `enter_frame` while `current_frame <= exit_frame`,
i.e. `exit - enter + 1` iterations).  `pos` is the capture's zero-based read
position; `cap.read()` yields the frame at `pos` when one exists and fails
otherwise, upon which the loop breaks (line 776-777). -/
def clipLoop {α : Type} (video : List α) (pos : ℕ) : ℕ → List α
  | 0 => []
  | n + 1 =>
    match video[pos]? with
    | some f => f :: clipLoop video (pos + 1) n
    | none => []

/-- One interval's extraction (lines 772-780): seek the capture to the
zero-based offset `enter_frame - 1` (`cap.set(cv2.CAP_PROP_POS_FRAMES,
enter_frame - 1)`), then run the read/write loop. -/
def extractClip {α : Type} (video : List α) (iv : Interval) : List α :=
  clipLoop video (iv.enter - 1) (iv.exit + 1 - iv.enter)

/-- Whole `clip_by_annotations` run.  `source` is `some video` when
`cv2.VideoCapture` opens (line 756), `sinkOk iv` tells whether the
`cv2.VideoWriter` for that interval's output file opens — the code never
checks it, and a writer that failed to open silently drops every `write`,
so that interval's output holds no frames.  The result is the Python return
value `(success, message)` — the message abstracted to which error it
reports, `none` on the success message — paired with the written clips. -/
def clip_by_annotations {α : Type} (store : List Entry) (source : Option (List α))
    (sinkOk : Interval → Bool) : (Bool × Option ClipError) × List (List α) :=
  match validateAnnotations store with
  | .error e => ((false, some e), [])
  | .ok ivs =>
    match source with
    | none => ((false, some .sourceUnopenable), [])
    | some video =>
      ((true, none), ivs.map (fun iv => if sinkOk iv then extractClip video iv else []))

/-! ## Normalizer (`video_to_avi`, lines 25-47) -/

/-- The distinct messages `video_to_avi` returns. -/
inductive NormMsg where
  | ffmpegError
  | emptyOrInvalid
  | converted
deriving DecidableEq

/-- `video_to_avi`: run ffmpeg; fail on a nonzero return code; then fail if
the output file does not exist (`outSize = none`) or is smaller than 1000
bytes; otherwise succeed.  `outSize` is the produced file's size when it
exists. -/
def video_to_avi (returncode : ℤ) (outSize : Option ℕ) : Bool × NormMsg :=
  if returncode ≠ 0 then (false, .ffmpegError)
  else if (match outSize with | none => true | some sz => decide (sz < 1000)) then
    (false, .emptyOrInvalid)
  else (true, .converted)

/-! ## Facts about the extraction loop -/

/-- The read/write loop delivers the `n`-frame window of the video starting
at read position `pos`, truncated at the end of the stream. -/
theorem clipLoop_eq {α : Type} (video : List α) : ∀ (n pos : ℕ),
    clipLoop video pos n = (video.drop pos).take n
  | 0, pos => by simp [clipLoop]
  | n + 1, pos => by
    rw [clipLoop]
    cases h : video[pos]? with
    | none =>
      have hlen : video.length ≤ pos := by
        simpa using List.getElem?_eq_none_iff.mp h
      simp [List.drop_eq_nil_of_le hlen]
    | some f =>
      have hlt : pos < video.length := by
        rcases List.getElem?_eq_some.mp h with ⟨hl, _⟩
        exact hl
      have hget : video[pos] = f := (List.getElem?_eq_some.mp h).2
      rw [clipLoop_eq video n (pos + 1), List.drop_eq_getElem_cons hlt, hget,
        List.take_succ_cons]

/-- C1: for every validated interval `(enter_frame, exit_frame, label)` whose
source video has at least `exit_frame` readable frames, the extractor — which
seeks to the zero-based offset `enter_frame - 1` by definition of
`extractClip` — writes exactly the frames `enter_frame` through `exit_frame`
inclusive to that interval's clip: the clip is the window of the source
starting at zero-based index `enter_frame - 1`, it holds
`exit_frame - enter_frame + 1` frames, and its `i`-th frame is the source's
frame at zero-based index `enter_frame - 1 + i` (i.e. 1-indexed frame
`enter_frame + i`). -/
theorem extractClip_exact {α : Type} (video : List α) (iv : Interval)
    (h1 : 1 ≤ iv.enter) (h2 : iv.enter ≤ iv.exit) (h3 : iv.exit ≤ video.length) :
    extractClip video iv = (video.drop (iv.enter - 1)).take (iv.exit - iv.enter + 1) ∧
    (extractClip video iv).length = iv.exit - iv.enter + 1 ∧
    ∀ i, i < iv.exit - iv.enter + 1 →
      (extractClip video iv)[i]? = video[iv.enter - 1 + i]? := by
  have hcount : iv.exit + 1 - iv.enter = iv.exit - iv.enter + 1 := by omega
  have he : extractClip video iv
      = (video.drop (iv.enter - 1)).take (iv.exit - iv.enter + 1) := by
    rw [extractClip, clipLoop_eq, hcount]
  refine ⟨he, ?_, ?_⟩
  · rw [he, List.length_take, List.length_drop]
    omega
  · intro i hi
    rw [he, List.getElem?_take_of_lt hi, List.getElem?_drop]

/-- Witness for `extractClip_exact`: the spec's example — a 100-frame source
and the interval `(enter := 10, exit := 30)` yield a clip of exactly the 21
frames 10 through 30 (zero-based indices 9 through 29). -/
theorem extractClip_exact_witness :
    extractClip (List.range 100) ⟨10, 30, "X"⟩ = ((List.range 100).drop 9).take 21 ∧
    (extractClip (List.range 100) ⟨10, 30, "X"⟩).length = 21 := by
  have h := extractClip_exact (List.range 100) ⟨10, 30, "X"⟩ (by decide) (by decide)
    (by simp)
  exact ⟨h.1, h.2.1⟩

/-! ## Facts about the overlap scan -/

/-- If every adjacent pair up to and including the pair ending at `a` is
non-overlapping and `b.enter ≤ a.exit`, the scan reports exactly the pair
`(a, b)` — the first violating pair in scan order. -/
theorem checkOverlap_first : ∀ (pre : List Interval) (a b : Interval) (post : List Interval),
    List.Chain' (fun u v => u.exit < v.enter) (pre ++ [a]) →
    b.enter ≤ a.exit →
    checkOverlap (pre ++ a :: b :: post) = .error (.overlap a.label b.label)
  | [], a, b, post, _, hov => by
    simp only [List.nil_append, checkOverlap, if_pos hov]
  | [x], a, b, post, hch, hov => by
    have hxa : x.exit < a.enter := (List.chain'_cons.mp hch).1
    have : ([x] ++ a :: b :: post) = x :: a :: b :: post := rfl
    rw [this, checkOverlap, if_neg (by omega)]
    exact checkOverlap_first [] a b post (by simp) hov
  | x :: y :: pre, a, b, post, hch, hov => by
    have hxy : x.exit < y.enter := (List.chain'_cons.mp hch).1
    have hch2 : List.Chain' (fun u v => u.exit < v.enter) ((y :: pre) ++ [a]) :=
      (List.chain'_cons.mp hch).2
    have : ((x :: y :: pre) ++ a :: b :: post) = x :: y :: (pre ++ a :: b :: post) := rfl
    rw [this, checkOverlap, if_neg (by omega)]
    exact checkOverlap_first (y :: pre) a b post hch2 hov

/-- C2: for every complete, non-inverted annotation set, the validator fails
with the overlap error naming the two offending labels of the first adjacent
pair, in ascending `enter_frame` order, whose later member starts at or
before the earlier member's `exit_frame`.  The hypothesis `b.enter ≤ a.exit`
covers the equal-boundary case: touching intervals are rejected. -/
theorem validator_overlap_error (store : List Entry) (ivs : List Interval)
    (pre : List Interval) (a b : Interval) (post : List Interval)
    (hc : collectIntervals store = .ok ivs)
    (hs : sortByEnter ivs = pre ++ a :: b :: post)
    (hch : List.Chain' (fun u v => u.exit < v.enter) (pre ++ [a]))
    (hov : b.enter ≤ a.exit) :
    validateAnnotations store = .error (.overlap a.label b.label) := by
  rw [validateAnnotations, hc]
  dsimp only
  rw [hs, checkOverlap_first pre a b post hch hov]

/-- Witness for `validator_overlap_error`: the spec's example
`[(1,10,"A"), (15,20,"B"), (20,25,"C")]` is rejected with
`OverlapError("B","C")` because `C.enter_frame (20) ≤ B.exit_frame (20)`. -/
theorem validator_overlap_error_witness :
    validateAnnotations
        [⟨"A", some 1, some 10⟩, ⟨"B", some 15, some 20⟩, ⟨"C", some 20, some 25⟩]
      = .error (.overlap "B" "C") :=
  validator_overlap_error
    [⟨"A", some 1, some 10⟩, ⟨"B", some 15, some 20⟩, ⟨"C", some 20, some 25⟩]
    [⟨1, 10, "A"⟩, ⟨15, 20, "B"⟩, ⟨20, 25, "C"⟩]
    [⟨1, 10, "A"⟩] ⟨15, 20, "B"⟩ ⟨20, 25, "C"⟩ []
    rfl rfl (by simp) (by decide)

/-! ## Facts about the completeness/inversion pass -/

/-- If every entry before `e` is complete and non-inverted, and `e` is
complete but inverted (`ex < en`), the collection pass stops at `e` with the
inverted-interval error — entries after `e` are never examined. -/
theorem collectIntervals_inverted : ∀ (pre : List Entry) (e : Entry) (post : List Entry)
    (en ex : ℕ),
    (∀ p ∈ pre, ∃ pn px, p.enter = some pn ∧ p.exit = some px ∧ pn ≤ px) →
    e.enter = some en → e.exit = some ex → ex < en →
    collectIntervals (pre ++ e :: post) = .error (.inverted e.label)
  | [], e, post, en, ex, _, he, hx, hlt => by
    rw [List.nil_append, collectIntervals, he, hx]
    dsimp only
    rw [if_pos hlt]
  | p :: pre, e, post, en, ex, hpre, he, hx, hlt => by
    obtain ⟨pn, px, hpn, hpx, hle⟩ := hpre p (by simp)
    have ih := collectIntervals_inverted pre e post en ex
      (fun q hq => hpre q (by simp [hq])) he hx hlt
    rw [List.cons_append, collectIntervals, hpn, hpx]
    dsimp only
    rw [if_neg (by omega), ih]

/-- C4: an annotation set containing an interval with
`exit_frame < enter_frame` is rejected with the inverted-interval error
naming that interval's label (the first inverted one in insertion order),
and the rejection happens before any sorting or overlap checking: the
conclusion holds with no assumption whatsoever on the entries after the
inverted one or on overlaps among the intervals, so no overlap error can
pre-empt it. -/
theorem validator_inverted_error (store : List Entry) (pre : List Entry) (e : Entry)
    (post : List Entry) (en ex : ℕ)
    (hsplit : store = pre ++ e :: post)
    (hpre : ∀ p ∈ pre, ∃ pn px, p.enter = some pn ∧ p.exit = some px ∧ pn ≤ px)
    (he : e.enter = some en) (hx : e.exit = some ex) (hlt : ex < en) :
    validateAnnotations store = .error (.inverted e.label) := by
  subst hsplit
  rw [validateAnnotations, collectIntervals_inverted pre e post en ex hpre he hx hlt]

/-- Witness for `validator_inverted_error`: the spec's inverted interval
`(enter := 30, exit := 10, label := "Y")` is rejected with
`InvertedIntervalError("Y")`, even though the store also holds a later
entry that itself overlaps the first and is incomplete — neither of which
is ever reached. -/
theorem validator_inverted_error_witness :
    validateAnnotations [⟨"Y", some 30, some 10⟩, ⟨"Z", some 5, none⟩]
      = .error (.inverted "Y") :=
  validator_inverted_error [⟨"Y", some 30, some 10⟩, ⟨"Z", some 5, none⟩]
    [] ⟨"Y", some 30, some 10⟩ [⟨"Z", some 5, none⟩] 30 10
    rfl (by simp) rfl rfl (by decide)

/-! ## Facts about the annotation store -/

/-- C5: marking `enter` on a label that already has an `enter` value is
rejected (`false` flag, the warning-dialog path) and the store — in
particular the previously stored `enter` value — is returned unchanged;
the same immutability holds for `exit`. -/
theorem mark_duplicate_rejected (store : List Entry) (l : String) (f g : ℕ) (e : Entry)
    (hl : lookupLabel store l = some e) :
    (e.enter.isSome = true →
      mark_enter store l f = (false, store) ∧
      lookupLabel (mark_enter store l f).2 l = some e) ∧
    (e.exit.isSome = true →
      mark_exit store l g = (false, store) ∧
      lookupLabel (mark_exit store l g).2 l = some e) := by
  constructor <;> intro h
  · have hm : mark_enter store l f = (false, store) := by
      rw [mark_enter, hl]
      dsimp only
      rw [if_pos h]
    exact ⟨hm, by rw [hm, hl]⟩
  · have hm : mark_exit store l g = (false, store) := by
      rw [mark_exit, hl]
      dsimp only
      rw [if_pos h]
    exact ⟨hm, by rw [hm, hl]⟩

/-- Witness for `mark_duplicate_rejected`: on a store where label `"A"`
already has `enter = 5` and `exit = 9`, a second `mark_enter` (at frame 7)
and a second `mark_exit` (at frame 11) are both rejected and leave the
store unchanged. -/
theorem mark_duplicate_rejected_witness :
    mark_enter [⟨"A", some 5, some 9⟩] "A" 7 = (false, [⟨"A", some 5, some 9⟩]) ∧
    mark_exit [⟨"A", some 5, some 9⟩] "A" 11 = (false, [⟨"A", some 5, some 9⟩]) := by
  have h := mark_duplicate_rejected [⟨"A", some 5, some 9⟩] "A" 7 11
    ⟨"A", some 5, some 9⟩ rfl
  exact ⟨(h.1 rfl).1, (h.2 rfl).1⟩

/-! ## Facts about the stable sort -/

/-- Inserting `x` into `l` commutes with filtering on a fixed `enter` key:
`x` lands in front of every element of `l` with the same key, because the
elements it is placed after all have strictly smaller keys. -/
theorem filter_orderedInsert (k : ℕ) (x : Interval) : ∀ l : List Interval,
    (List.orderedInsert (fun a b => a.enter ≤ b.enter) x l).filter
        (fun iv => decide (iv.enter = k)) =
      if x.enter = k then x :: l.filter (fun iv => decide (iv.enter = k))
      else l.filter (fun iv => decide (iv.enter = k))
  | [] => by
    simp only [List.orderedInsert, List.filter]
    split <;> rename_i h
    · rw [if_pos (of_decide_eq_true h)]
    · rw [if_neg (of_decide_eq_false h)]
  | y :: ys => by
    rw [List.orderedInsert]
    split <;> rename_i hle
    · simp only [List.filter_cons]
      split <;> split <;> simp_all
    · have hlt : y.enter < x.enter := Nat.lt_of_not_le hle
      simp only [List.filter_cons, filter_orderedInsert k x ys]
      by_cases hx : x.enter = k
      · have hy : ¬ y.enter = k := by omega
        simp [hx, hy]
      · simp [hx]

/-- The stable sort preserves, for each `enter` key, the insertion-ordered
run of intervals carrying that key. -/
theorem filter_sortByEnter (k : ℕ) : ∀ l : List Interval,
    (sortByEnter l).filter (fun iv => decide (iv.enter = k)) =
      l.filter (fun iv => decide (iv.enter = k))
  | [] => rfl
  | x :: xs => by
    rw [sortByEnter, List.insertionSort, filter_orderedInsert k x,
      List.filter_cons]
    have ih := filter_sortByEnter k xs
    rw [sortByEnter] at ih
    by_cases hx : x.enter = k <;> simp [hx, ih]

/-- C7: on a complete, non-inverted, non-overlapping annotation set —
whatever the insertion order — the validator returns the collected
intervals sorted ascending by `enter_frame`; the output is a permutation of
the insertion-ordered intervals, it is sorted by `enter_frame`, and ties
are broken by insertion order (stability, expressed as: filtering on any
`enter` key returns exactly the insertion-ordered sublist of that key). -/
theorem validator_sorts_stably (store : List Entry) (ivs : List Interval)
    (hc : collectIntervals store = .ok ivs)
    (hov : checkOverlap (sortByEnter ivs) = .ok ()) :
    validateAnnotations store = .ok (sortByEnter ivs) ∧
    (sortByEnter ivs).Perm ivs ∧
    List.Sorted (fun a b => a.enter ≤ b.enter) (sortByEnter ivs) ∧
    ∀ k, (sortByEnter ivs).filter (fun iv => decide (iv.enter = k)) =
      ivs.filter (fun iv => decide (iv.enter = k)) := by
  refine ⟨?_, List.perm_insertionSort _ ivs, List.sorted_insertionSort _ ivs,
    fun k => filter_sortByEnter k ivs⟩
  rw [validateAnnotations, hc]
  dsimp only
  rw [hov]

/-- Witness for `validator_sorts_stably`: the spec's out-of-order example
`[(15,20,"B"), (1,10,"A")]` validates to `[A, B]`, sorted ascending by
`enter_frame`. -/
theorem validator_sorts_stably_witness :
    validateAnnotations [⟨"B", some 15, some 20⟩, ⟨"A", some 1, some 10⟩]
      = .ok [⟨1, 10, "A"⟩, ⟨15, 20, "B"⟩] := by
  have h := validator_sorts_stably [⟨"B", some 15, some 20⟩, ⟨"A", some 1, some 10⟩]
    [⟨15, 20, "B"⟩, ⟨1, 10, "A"⟩] rfl rfl
  exact h.1

/-! ## Facts about exhaustion, sink failures and the empty store -/

/-- C6: when the source is exhausted before an interval's `exit_frame`
(fewer readable frames than `exit_frame`), the extractor truncates that
interval's clip to the frames that were readable from `enter_frame - 1` on
(`video.drop (iv.enter - 1)`), reports no error, and the whole run — which
processes every interval of the validated set — still returns success
(`(true, none)`). -/
theorem exhausted_source_truncates {α : Type} (store : List Entry) (video : List α)
    (ivs : List Interval) (sinkOk : Interval → Bool) (iv : Interval)
    (hc : collectIntervals store = .ok ivs)
    (hov : checkOverlap (sortByEnter ivs) = .ok ())
    (h1 : 1 ≤ iv.enter) (h2 : iv.enter ≤ iv.exit)
    (hex : video.length < iv.exit) :
    (clip_by_annotations store (some video) sinkOk).1 = (true, none) ∧
    (clip_by_annotations store (some video) sinkOk).2 =
      (sortByEnter ivs).map (fun jv => if sinkOk jv then extractClip video jv else []) ∧
    extractClip video iv = video.drop (iv.enter - 1) := by
  have hval : validateAnnotations store = .ok (sortByEnter ivs) := by
    rw [validateAnnotations, hc]
    dsimp only
    rw [hov]
  refine ⟨?_, ?_, ?_⟩
  · rw [clip_by_annotations, hval]
  · rw [clip_by_annotations, hval]
  · rw [extractClip, clipLoop_eq]
    apply List.take_of_length_le
    rw [List.length_drop]
    omega

/-- Witness for `exhausted_source_truncates`: the spec's scenario — the
source runs out at frame 95 while the interval asks for `exit = 100`.  With
`enter = 90` the clip is truncated to the six readable frames 90 through 95
and the run still succeeds. -/
theorem exhausted_source_truncates_witness :
    (clip_by_annotations [⟨"X", some 90, some 100⟩]
        (some (List.range 95)) (fun _ => true)).1 = (true, none) ∧
    extractClip (List.range 95) ⟨90, 100, "X"⟩ = (List.range 95).drop 89 := by
  have h := exhausted_source_truncates [⟨"X", some 90, some 100⟩] (List.range 95)
    [⟨90, 100, "X"⟩] (fun _ => true) ⟨90, 100, "X"⟩ rfl rfl
    (by decide) (by decide) (by simp)
  exact ⟨h.1, h.2.2⟩

/-- C8: the normalizer reports success iff the conversion process exited
with status 0, the output file exists, and it is at least the plausibility
threshold of 1000 bytes; equivalently it reports failure whenever the exit
status is nonzero, or the output is missing, or the output is implausibly
small — even though in the latter two cases the conversion process itself
exited cleanly. -/
theorem video_to_avi_success_iff (rc : ℤ) (outSize : Option ℕ) :
    (video_to_avi rc outSize).1 = true ↔
      rc = 0 ∧ ∃ sz, outSize = some sz ∧ 1000 ≤ sz := by
  rw [video_to_avi.eq_def]
  rcases outSize with _ | sz
  · by_cases h : rc = 0 <;> simp [h]
  · by_cases h : rc = 0
    · by_cases h2 : sz < 1000
      · simp only [h, ne_eq, not_true_eq_false, if_false]
        simp [h2]
      · simp only [h, ne_eq, not_true_eq_false, if_false]
        simp [h2]
        omega
    · simp [h]

/-- C10: on an empty annotation store the run succeeds vacuously: the
validator accepts the empty interval set, no clip is produced, and the
result is the success message, not an error — for any opened source and
any sink behaviour. -/
theorem empty_store_success {α : Type} (video : List α) (sinkOk : Interval → Bool) :
    clip_by_annotations ([] : List Entry) (some video) sinkOk = ((true, none), []) := rfl

/-- C9 counterexample: the claim says a per-interval sink-open failure "is
reported".  It is not: with a store of two valid intervals, a 30-frame
source, and the sink for interval `"A"` failing to open, the run's
`(success, message)` result is the plain success `(true, none)` — exactly
the result of the run where every sink opens — and interval `"A"` silently
contributes an empty clip.  No failure is reported anywhere. -/
theorem sink_failure_not_reported :
    (clip_by_annotations [⟨"A", some 1, some 10⟩, ⟨"B", some 15, some 20⟩]
        (some (List.range 30)) (fun iv => !(iv.label == "A"))).1 = (true, none) ∧
    (clip_by_annotations [⟨"A", some 1, some 10⟩, ⟨"B", some 15, some 20⟩]
        (some (List.range 30)) (fun iv => !(iv.label == "A"))).1 =
      (clip_by_annotations [⟨"A", some 1, some 10⟩, ⟨"B", some 15, some 20⟩]
        (some (List.range 30)) (fun _ => true)).1 ∧
    (clip_by_annotations [⟨"A", some 1, some 10⟩, ⟨"B", some 15, some 20⟩]
        (some (List.range 30)) (fun iv => !(iv.label == "A"))).2.head? = some [] := by
  refine ⟨rfl, rfl, ?_⟩
  rfl

/-- C9 amended: a failure to open the output sink for one interval is
silently ignored, not reported — the run still returns the success result
`(true, none)`, the failing interval contributes an empty clip, and sibling
intervals are extracted unaffected; only failure to open the shared source
fails the whole batch. -/
theorem sink_failure_silent {α : Type} (store : List Entry) (video : List α)
    (sinkOk : Interval → Bool) (ivs : List Interval)
    (hc : collectIntervals store = .ok ivs)
    (hov : checkOverlap (sortByEnter ivs) = .ok ()) :
    (clip_by_annotations store (some video) sinkOk).1 = (true, none) ∧
    (clip_by_annotations store (some video) sinkOk).2 =
      (sortByEnter ivs).map (fun iv => if sinkOk iv then extractClip video iv else []) ∧
    (clip_by_annotations store (none : Option (List α)) sinkOk).1 =
      (false, some .sourceUnopenable) := by
  have hval : validateAnnotations store = .ok (sortByEnter ivs) := by
    rw [validateAnnotations, hc]
    dsimp only
    rw [hov]
  refine ⟨?_, ?_, ?_⟩ <;> rw [clip_by_annotations, hval]

/-- Witness for `sink_failure_silent`: the two-interval store of the
counterexample, with the sink for `"A"` failing: success result, empty clip
for `"A"`, the full 6-frame clip for `"B"`, and batch failure when the
source itself cannot be opened. -/
theorem sink_failure_silent_witness :
    (clip_by_annotations [⟨"A", some 1, some 10⟩, ⟨"B", some 15, some 20⟩]
        (some (List.range 30)) (fun iv => !(iv.label == "A"))).2 =
      [[], ((List.range 30).drop 14).take 6] ∧
    (clip_by_annotations [⟨"A", some 1, some 10⟩, ⟨"B", some 15, some 20⟩]
        ((none : Option (List ℕ)))
        (fun iv => !(iv.label == "A"))).1 = (false, some .sourceUnopenable) := by
  have h := sink_failure_silent [⟨"A", some 1, some 10⟩, ⟨"B", some 15, some 20⟩]
    (List.range 30) (fun iv => !(iv.label == "A"))
    [⟨1, 10, "A"⟩, ⟨15, 20, "B"⟩] rfl rfl
  refine ⟨?_, h.2.2⟩
  rw [h.2.1]
  rfl

/-! ## Facts about the frame/time round trip -/

/-- C3 counterexample: the claimed exact round trip fails already at
`fps = 25` (the normalizer's fixed rate) and `frame = 2`: frame 2 maps to
`round((2-1)*1000/25) = 40` ms, and back to
`max 1 ⌊40 * 25 / 1000⌋ = max 1 1 = 1 ≠ 2`.  The two conversion formulas
disagree by one in their frame-origin convention, so no frame ≥ 2 ever
round-trips. -/
theorem roundtrip_not_exact :
    ms_to_frame (frame_to_ms 2 25) 25 = 1 ∧ (1 : ℤ) ≠ 2 := by
  constructor
  · norm_num [ms_to_frame, frame_to_ms, round_eq]
  · decide

/-- C3 amended: for every `0 < fps < 2000` and `frame ≥ 1`, the round trip
`ms_to_frame (frame_to_ms frame fps) fps` does not return `frame` but a
value in the clamped band `[max 1 (frame - 2), max 1 (frame - 1)]`: the
rounding of `frame_to_ms` moves the position by at most half a millisecond,
which after the flooring of `ms_to_frame` lands one or two frames below the
original (only frame 1 round-trips exactly, via the clamp). -/
theorem roundtrip_bounds (f : ℤ) (fps : ℚ) (_hf : 1 ≤ f) (hfps : 0 < fps)
    (hlt : fps < 2000) :
    max 1 (f - 2) ≤ ms_to_frame (frame_to_ms f fps) fps ∧
    ms_to_frame (frame_to_ms f fps) fps ≤ max 1 (f - 1) := by
  simp only [ms_to_frame, frame_to_ms]
  set x : ℚ := ((f : ℚ) - 1) * 1000 / fps with hx
  set v : ℚ := ((round x : ℤ) : ℚ) * fps / 1000 with hv
  have hround : |((round x : ℤ) : ℚ) - x| ≤ 1 / 2 := by
    rw [abs_sub_comm]
    exact abs_sub_round x
  have hxv : x * fps / 1000 = (f : ℚ) - 1 := by
    rw [hx]
    field_simp
  have hdelta : v - ((f : ℚ) - 1) = (((round x : ℤ) : ℚ) - x) * fps / 1000 := by
    rw [hv, ← hxv]
    ring
  have habs : |v - ((f : ℚ) - 1)| ≤ fps / 2000 := by
    rw [hdelta, abs_div, abs_mul]
    rw [abs_of_pos (by norm_num : (0:ℚ) < 1000), abs_of_pos hfps]
    calc |((round x : ℤ) : ℚ) - x| * fps / 1000 ≤ (1/2) * fps / 1000 := by
          apply div_le_div_of_nonneg_right ?_ (by norm_num)
          · exact mul_le_mul_of_nonneg_right hround (le_of_lt hfps)
      _ = fps / 2000 := by ring
  have hband : fps / 2000 < 1 := by
    rw [div_lt_one (by norm_num)]
    exact hlt
  have hlow : (f : ℚ) - 2 < v := by
    have := abs_le.mp habs
    linarith [this.1]
  have hhigh : v < (f : ℚ) := by
    have := abs_le.mp habs
    linarith [this.2]
  have h1 : (f - 2 : ℤ) ≤ ⌊v⌋ := by
    apply Int.le_floor.mpr
    push_cast
    linarith
  have h2 : ⌊v⌋ < f := by
    apply Int.floor_lt.mpr
    linarith
  constructor
  · exact max_le_max le_rfl h1
  · exact max_le_max le_rfl (by omega)

/-- Witness for `roundtrip_bounds`: at `fps = 25`, frame 5 round-trips to a
value in `[3, 4]` (it is in fact 4, one below the original). -/
theorem roundtrip_bounds_witness :
    max 1 ((5:ℤ) - 2) ≤ ms_to_frame (frame_to_ms 5 25) 25 ∧
    ms_to_frame (frame_to_ms 5 25) 25 ≤ max 1 ((5:ℤ) - 1) :=
  roundtrip_bounds 5 25 (by norm_num) (by norm_num) (by norm_num)

end NBCG
